import Mathlib

/-!
# Verification of `diff_submissions.py`

A shallow embedding of the submission-diffing tool, together with proofs of
the specified properties.

The tool reads two checkbox submission archives, normalizes each into a
`job_id -> outcome` dictionary, diffs the two dictionaries, and prints a
report.  We embed the pure core:

* Python dictionaries with string keys are modelled as association lists in
  insertion order with unique keys; `dictInsert` is dict item assignment
  (overwrite in place, append otherwise) and `assocGet` is subscripting.
* Parsed JSON values are modelled by `PyVal`; a missing-key subscript raises
  `KeyError` naming the key, modelled by `Except` with `PyError.keyError`.
* Python sets of job ids are unordered, so `set(...)`, `-` and `&` are
  modelled on `Finset String`; the `different` dict built by scanning the
  intersection (whose iteration order is unspecified hash order) is modelled
  extensionally as the `Finset` of `(job, outcome1, outcome2)` triples.
* `print`-based reporting is modelled as the list of printed lines.
-/

namespace DiffSubmissions

/-- A parsed JSON value, as produced by `json.loads`. -/
inductive PyVal where
  | str (s : String)
  | num (n : Int)
  | bool (b : Bool)
  | null
  | list (xs : List PyVal)
  | dict (fields : List (String × PyVal))

/-- Errors a Python dict subscript or a type mismatch can raise:
`keyError k` models `KeyError(k)`; `typeError` models `TypeError`. -/
inductive PyError where
  | keyError (field : String)
  | typeError
deriving DecidableEq

/-- A normalized submission: the simplified `job_id -> outcome` dict. -/
abbrev Dict := List (String × String)

/-- Python dict subscript `d[k]` on the association-list model: the value at
the first entry whose key is `k` (keys are unique in a Python dict). -/
def assocGet {β : Type} (d : List (String × β)) (k : String) : Option β :=
  match d with
  | [] => none
  | p :: ds => if p.1 = k then some p.2 else assocGet ds k

/-- Lookup in a normalized submission, `submission[job]`. -/
abbrev dictGet (d : Dict) (k : String) : Option String :=
  assocGet d k

/-- Python dict item assignment `d[k] = v`: overwrite in place when the key
is present, append otherwise (dicts preserve insertion order). -/
def dictInsert (d : Dict) (k v : String) : Dict :=
  if k ∈ d.map Prod.fst then
    d.map (fun p => if p.1 = k then (k, v) else p)
  else
    d ++ [(k, v)]

/-- Fallible dict subscript: `fields[k]` raises `KeyError(k)` when absent. -/
def getField (fields : List (String × PyVal)) (k : String) : Except PyError PyVal :=
  match assocGet fields k with
  | some v => .ok v
  | none => .error (.keyError k)

/-- Use of a value where a string is needed (job ids are dict keys and the
spec types both fields as strings; a non-string here is a type error). -/
def asString : PyVal → Except PyError String
  | .str s => .ok s
  | _ => .error .typeError

/-- One step of the dict comprehension in `simplify_submission`: evaluate
`result["id"]`, then `result["status"]` (Python evaluates the key before the
value), then insert the pair. -/
def simplifyStep (d : Dict) (result : PyVal) : Except PyError Dict := do
  match result with
  | .dict fields => do
    let idv ← getField fields "id"
    let id ← asString idv
    let stv ← getField fields "status"
    let st ← asString stv
    .ok (dictInsert d id st)
  | _ => .error .typeError

/--
```python
def simplify_submission(submission: dict) -> dict:
    return {result["id"]: result["status"] for result in submission["results"]}
```
`submission["results"]` raises `KeyError("results")` when absent; the
comprehension builds the dict left to right, raising `KeyError` at the first
entry missing a field and then producing no dict at all.  Iterating a
non-list value for `results` is modelled as a type error.
-/
def simplify_submission (submission : List (String × PyVal)) : Except PyError Dict := do
  let resv ← getField submission "results"
  match resv with
  | .list results => results.foldlM simplifyStep []
  | _ => .error .typeError

/-- The `(id, status)` string fields of a result entry, when both are
present: the shape of an entry the comprehension accepts. -/
def entryFields (r : PyVal) : Option (String × String) :=
  match r with
  | .dict fields =>
    match assocGet fields "id", assocGet fields "status" with
    | some (.str i), some (.str s) => some (i, s)
    | _, _ => none
  | _ => none

/-- The `(id, status)` pair of an accepted entry (junk on rejected ones). -/
def entryPair (r : PyVal) : String × String :=
  (entryFields r).getD ("", "")

/-- Inserting one `(key, value)` pair by dict item assignment. -/
def insPair (d : Dict) (p : String × String) : Dict :=
  dictInsert d p.1 p.2

/-- The dict built from a list of pairs by repeated item assignment, as the
comprehension does. -/
def mkDict (ps : List (String × String)) : Dict :=
  ps.foldl insPair []

/-- The value of the last pair carrying the given key, if any. -/
def lastVal (ps : List (String × String)) (k : String) : Option String :=
  ps.foldl (fun acc p => if p.1 = k then some p.2 else acc) none

/-- The set of keys of a dict, `set(d.keys())`. -/
def dictKeys (d : Dict) : Finset String :=
  (d.map Prod.fst).toFinset

/-- The identifiers present in both submissions with equal outcomes — the
third cell of the partition of `keys A` alongside `only1` and the changed
keys. -/
def sameOutcomes (A B : Dict) : Finset String :=
  (dictKeys A ∩ dictKeys B).filter fun k => dictGet A k = dictGet B k

/--
```python
def diff_submissions(submission1: dict, submission2: dict) -> dict:
    jobs1 = set(submission1.keys())
    jobs2 = set(submission2.keys())
    only1 = jobs1 - jobs2
    only2 = jobs2 - jobs1
    both = jobs1 & jobs2
    different = {job: (submission1[job], submission2[job])
                 for job in both if submission1[job] != submission2[job]}
    return only1, only2, different
```
`different` is a dict keyed by jobs drawn from the unordered set `both`, so
its insertion order is unspecified; we model it extensionally as the set of
`(job, submission1[job], submission2[job])` triples.  For `job ∈ both` both
subscripts succeed, so the `Option.getD` defaults are never reached.
-/
def diff_submissions (submission1 submission2 : Dict) :
    Finset String × Finset String × Finset (String × String × String) :=
  let jobs1 := dictKeys submission1
  let jobs2 := dictKeys submission2
  let only1 := jobs1 \ jobs2
  let only2 := jobs2 \ jobs1
  let both := jobs1 ∩ jobs2
  let different :=
    (both.filter fun job => dictGet submission1 job ≠ dictGet submission2 job).image
      fun job => (job, (dictGet submission1 job).getD "", (dictGet submission2 job).getD "")
  (only1, only2, different)

/-- ANSI sequence `"\033[1;32;5m"`: bold/bright, green, blink. -/
def greenBlink : String := "\x1b[1;32;5m"

/-- ANSI sequence `"\033[1;31;5m"`: bold/bright, red, blink. -/
def redBlink : String := "\x1b[1;31;5m"

/-- ANSI reset sequence `"\033[0m"`. -/
def colorReset : String := "\x1b[0m"

/--
```python
def colorize_outcome(outcome: str) -> str:
    prefix = ""
    if outcome == "pass":
        prefix = "\033[1;32;5m"
    elif outcome == "fail":
        prefix = "\033[1;31;5m"
    return prefix + outcome + "\033[0m"
```
Note the reset suffix is appended unconditionally, also for outcomes other
than `"pass"` and `"fail"`.
-/
def colorize_outcome (outcome : String) : String :=
  let pre : String :=
    if outcome = "pass" then greenBlink
    else if outcome = "fail" then redBlink
    else ""
  pre ++ outcome ++ colorReset

/-- A single quote character, used by the report's f-strings. -/
def sq : String := String.singleton (Char.ofNat 39)

/-- `'{s}'` — a string wrapped in single quotes. -/
def quoted (s : String) : String := sq ++ s ++ sq

/-- A line of sections 1 and 2: `f"  '{job}': '{colorize_outcome(sub[job])}'"`.
For jobs of these sections the lookup always succeeds, so the `getD` default
is never reached. -/
def onlyJobLine (sub : Dict) (job : String) : String :=
  "  " ++ quoted job ++ ": " ++ quoted (colorize_outcome ((dictGet sub job).getD ""))

/-- Sections 1 and 2 of the report (`if only1: ...` in `main`): emitted only
when the set is non-empty (Python truthiness), one line per job, jobs in
ascending order (`sorted(only1)`; Lean's `≤` on `String`, like Python's, is
lexicographic on code points). -/
def onlyJobsSection (label : String) (sub : Dict) (only : Finset String) : List String :=
  if only = ∅ then []
  else ("Jobs only in the " ++ label ++ ":") ::
    (only.sort (· ≤ ·)).map (onlyJobLine sub)

/-- A line of section 3: `f"  '{job}': '{outcomes[0]} ' vs '{outcomes[1]}'"`
(the stored pair is `(submission1[job], submission2[job])`; note the trailing
space inside the first quoted outcome, as in the source). -/
def diffJobLine (submission1 submission2 : Dict) (job : String) : String :=
  "  " ++ quoted job ++ ": " ++ quoted (((dictGet submission1 job).getD "") ++ " ") ++
    " vs " ++ quoted ((dictGet submission2 job).getD "")

/-- Section 3 of the report (`if different: ...` in `main`): emitted only when
`different` is non-empty; a header naming both labels, then one line per job.
Python iterates the `different` dict in its (hash-derived, unspecified)
insertion order; no specified property depends on that order and we enumerate
its keys sorted.  The outcomes printed are the stored pair
`(submission1[job], submission2[job])`, read back here via the lookups that
produced them. -/
def differentSection (label1 label2 : String) (submission1 submission2 : Dict)
    (different : Finset (String × String × String)) : List String :=
  if different = ∅ then []
  else "Jobs with different outcomes:" :: ("  " ++ label1 ++ " vs " ++ label2) ::
    ((different.image Prod.fst).sort (· ≤ ·)).map (diffJobLine submission1 submission2)

/-- The report phase of `main` (lines after the two submissions are
simplified), as the list of lines printed to standard output. -/
def report (label1 label2 : String) (submission1 submission2 : Dict) : List String :=
  let d := diff_submissions submission1 submission2
  onlyJobsSection label1 submission1 d.1 ++
    onlyJobsSection label2 submission2 d.2.1 ++
    differentSection label1 label2 submission1 submission2 d.2.2

/-- The usage message of `main`. -/
def usageMsg : String := "Usage: diff_submissions.py submission1.tar.xz submission2.tar.xz"

/-- Outcome of a run of `main`:
* `usage msg` — `raise SystemExit(msg)`: `msg` goes to the error stream and
  the process exits with status 1 (non-zero), printing no report;
* `fatal e` — an uncaught exception from the normalizer: diagnostic to the
  error stream, non-zero exit status, no report;
* `done lines` — `lines` printed to standard output, exit status 0. -/
inductive MainResult where
  | usage (msg : String)
  | fatal (e : PyError)
  | done (lines : List String)
deriving DecidableEq

/--
```python
def main():
    if len(sys.argv) != 3:
        raise SystemExit("Usage: ...")
    submission1 = simplify_submission(extract_submissions(sys.argv[1]))
    submission2 = simplify_submission(extract_submissions(sys.argv[2]))
    ...report...
```
`argv` is `sys.argv`, program name included, so the check fires exactly when
the positional argument count differs from 2.  `extract_submissions` is file
I/O (tar + JSON parse); we model `main` on the two parsed records it yields,
`record1` and `record2`.  The first submission is normalized before the
second, so an error in the first wins. -/
def main_run (argv : List String) (record1 record2 : List (String × PyVal)) : MainResult :=
  if argv.length ≠ 3 then .usage usageMsg
  else
    match simplify_submission record1 with
    | .error e => .fatal e
    | .ok submission1 =>
      match simplify_submission record2 with
      | .error e => .fatal e
      | .ok submission2 =>
        .done (report (argv[1]?.getD "") (argv[2]?.getD "") submission1 submission2)

/-- State-passing embedding of `diff_submissions` with its two dict arguments
as an explicit store: every operation the body performs — `set(...)` on the
key views, set difference, set intersection, subscripting, and the dict
comprehension — reads its operands and builds a fresh object, so each step
threads the store through unchanged and the final store is returned alongside
the result. -/
def diff_submissions_store (store : Dict × Dict) :
    (Finset String × Finset String × Finset (String × String × String)) × (Dict × Dict) :=
  let submission1 := store.1
  let submission2 := store.2
  let jobs1 := dictKeys submission1
  let jobs2 := dictKeys submission2
  let only1 := jobs1 \ jobs2
  let only2 := jobs2 \ jobs1
  let both := jobs1 ∩ jobs2
  let different :=
    (both.filter fun job => dictGet submission1 job ≠ dictGet submission2 job).image
      fun job => (job, (dictGet submission1 job).getD "", (dictGet submission2 job).getD "")
  ((only1, only2, different), (submission1, submission2))

/-! ## Basic lemmas on the dictionary model -/

@[simp]
theorem ok_bind {ε α β : Type} (a : α) (f : α → Except ε β) :
    (Except.ok a : Except ε α) >>= f = f a := rfl

@[simp]
theorem error_bind {ε α β : Type} (e : ε) (f : α → Except ε β) :
    (Except.error e : Except ε α) >>= f = Except.error e := rfl

theorem assocGet_isSome {β : Type} (d : List (String × β)) (k : String) :
    (assocGet d k).isSome ↔ k ∈ d.map Prod.fst := by
  induction d with
  | nil => simp [assocGet]
  | cons p ds ih =>
    by_cases h : p.1 = k
    · simp [assocGet, h]
    · simp [assocGet, h, ih, Ne.symm h]

theorem mem_dictKeys {d : Dict} {k : String} :
    k ∈ dictKeys d ↔ (dictGet d k).isSome := by
  rw [dictKeys, List.mem_toFinset, ← assocGet_isSome]

/-- Mapping the overwrite function across a dict leaves lookups of other
keys unchanged. -/
theorem assocGet_overwrite_ne (d : Dict) (a v k : String) (h : k ≠ a) :
    assocGet (d.map fun p => if p.1 = a then (a, v) else p) k = assocGet d k := by
  induction d with
  | nil => rfl
  | cons p ds ih =>
    by_cases hp : p.1 = a
    · have hpk : ¬ p.1 = k := fun hc => h (hc ▸ hp)
      simp [assocGet, hp, Ne.symm h, hpk, ih]
    · simp [assocGet, hp, ih]

/-- After overwriting, the assigned key maps to the new value. -/
theorem assocGet_overwrite_self (d : Dict) (a v : String) (hmem : a ∈ d.map Prod.fst) :
    assocGet (d.map fun p => if p.1 = a then (a, v) else p) a = some v := by
  induction d with
  | nil => simp at hmem
  | cons p ds ih =>
    by_cases hp : p.1 = a
    · simp [assocGet, hp]
    · have hds : a ∈ ds.map Prod.fst := by
        rcases List.mem_cons.mp hmem with h1 | h1
        · exact absurd h1.symm hp
        · exact h1
      simp [assocGet, hp, ih hds]

/-- Appending a fresh key: it maps to the new value, other keys are
unaffected. -/
theorem assocGet_append_new (d : Dict) (a v k : String) (hmem : a ∉ d.map Prod.fst) :
    assocGet (d ++ [(a, v)]) k = if k = a then some v else assocGet d k := by
  induction d with
  | nil =>
    by_cases h : k = a
    · simp [assocGet, h]
    · simp [assocGet, h, Ne.symm h]
  | cons p ds ih =>
    have hds : a ∉ ds.map Prod.fst := fun hc => hmem (by simp [hc])
    by_cases hk : p.1 = k
    · have hka : ¬ k = a := fun hc => hmem (by simp [← hc, ← hk])
      simp [assocGet, hk, hka]
    · simp [assocGet, hk, ih hds]

/-- Dict item assignment, seen through lookup: the assigned key now maps to
the new value and every other key is unaffected. -/
theorem dictGet_dictInsert (d : Dict) (a v k : String) :
    dictGet (dictInsert d a v) k = if k = a then some v else dictGet d k := by
  unfold dictGet dictInsert
  by_cases hmem : a ∈ d.map Prod.fst
  · rw [if_pos hmem]
    by_cases hk : k = a
    · subst hk
      rw [if_pos rfl]
      exact assocGet_overwrite_self d k v hmem
    · rw [if_neg hk]
      exact assocGet_overwrite_ne d a v k hk
  · rw [if_neg hmem]
    exact assocGet_append_new d a v k hmem

/-- Dict item assignment, seen through the key list: overwrite keeps the
keys, a fresh key is appended. -/
theorem map_fst_dictInsert (d : Dict) (a v : String) :
    (dictInsert d a v).map Prod.fst =
      if a ∈ d.map Prod.fst then d.map Prod.fst else d.map Prod.fst ++ [a] := by
  unfold dictInsert
  by_cases hmem : a ∈ d.map Prod.fst
  · simp only [if_pos hmem]
    induction d with
    | nil => rfl
    | cons p ds ih =>
      by_cases hp : p.1 = a
      · by_cases hds : a ∈ ds.map Prod.fst
        · simp [hp, ih hds]
        · simp only [List.map_cons, if_pos hp]
          have hmap : (ds.map fun p => if p.1 = a then (a, v) else p) = ds := by
            conv_rhs => rw [← List.map_id ds]
            apply List.map_congr_left
            intro x hx
            have hxa : x.1 ≠ a := fun hc => hds (hc ▸ List.mem_map_of_mem Prod.fst hx)
            simp [hxa]
          simp [hmap, hp]
      · have hds : a ∈ ds.map Prod.fst := by
          rcases List.mem_cons.mp hmem with h1 | h1
          · exact absurd h1.symm hp
          · exact h1
        simp [hp, ih hds]
  · simp [if_neg hmem]

theorem nodup_keys_dictInsert (d : Dict) (a v : String)
    (h : (d.map Prod.fst).Nodup) : ((dictInsert d a v).map Prod.fst).Nodup := by
  rw [map_fst_dictInsert]
  by_cases hmem : a ∈ d.map Prod.fst
  · simpa [hmem] using h
  · simp [hmem, List.nodup_append, h]

theorem dictGet_foldl_insPair (ps : List (String × String)) (d : Dict) (k : String) :
    dictGet (ps.foldl insPair d) k =
      ps.foldl (fun acc p => if p.1 = k then some p.2 else acc) (dictGet d k) := by
  induction ps generalizing d with
  | nil => rfl
  | cons p ps ih =>
    simp only [List.foldl_cons]
    rw [ih, insPair, dictGet_dictInsert]
    congr 1
    by_cases h : p.1 = k
    · simp [h]
    · simp [h, Ne.symm h]

/-- Looking up a key in the dict built from a pair list yields the value of
the last pair carrying that key: the comprehension is last-write-wins. -/
theorem dictGet_mkDict (ps : List (String × String)) (k : String) :
    dictGet (mkDict ps) k = lastVal ps k := by
  have h := dictGet_foldl_insPair ps [] k
  simpa [mkDict, lastVal, dictGet, assocGet] using h

theorem nodup_keys_foldl_insPair (ps : List (String × String)) (d : Dict)
    (h : (d.map Prod.fst).Nodup) : ((ps.foldl insPair d).map Prod.fst).Nodup := by
  induction ps generalizing d with
  | nil => exact h
  | cons p ps ih =>
    simp only [List.foldl_cons]
    exact ih _ (nodup_keys_dictInsert d p.1 p.2 h)

/-- The keys of the dict built by the comprehension are unique. -/
theorem nodup_keys_mkDict (ps : List (String × String)) :
    ((mkDict ps).map Prod.fst).Nodup :=
  nodup_keys_foldl_insPair ps [] (by simp)

/-! ## Lemmas on the diff engine -/

theorem diff_fst (A B : Dict) :
    (diff_submissions A B).1 = dictKeys A \ dictKeys B := rfl

theorem diff_snd_fst (A B : Dict) :
    (diff_submissions A B).2.1 = dictKeys B \ dictKeys A := rfl

theorem diff_different (A B : Dict) :
    (diff_submissions A B).2.2 =
      ((dictKeys A ∩ dictKeys B).filter fun job => dictGet A job ≠ dictGet B job).image
        fun job => (job, (dictGet A job).getD "", (dictGet B job).getD "") := rfl

/-- Extensional description of the `different` dict: a triple is in it
exactly when both lookups succeed and the outcomes differ. -/
theorem mem_different_iff (A B : Dict) (k v1 v2 : String) :
    (k, v1, v2) ∈ (diff_submissions A B).2.2 ↔
      dictGet A k = some v1 ∧ dictGet B k = some v2 ∧ v1 ≠ v2 := by
  rw [diff_different]
  simp only [Finset.mem_image, Finset.mem_filter, Finset.mem_inter]
  constructor
  · rintro ⟨j, ⟨⟨hjA, hjB⟩, hne⟩, heq⟩
    obtain ⟨a, ha⟩ := Option.isSome_iff_exists.mp (mem_dictKeys.mp hjA)
    obtain ⟨b, hb⟩ := Option.isSome_iff_exists.mp (mem_dictKeys.mp hjB)
    rw [ha, hb] at hne
    have heq' : j = k ∧ a = v1 ∧ b = v2 := by simpa [Prod.ext_iff, ha, hb] using heq
    obtain ⟨rfl, rfl, rfl⟩ := heq'
    exact ⟨ha, hb, by simpa using hne⟩
  · rintro ⟨h1, h2, hne⟩
    refine ⟨k, ⟨⟨mem_dictKeys.mpr ?_, mem_dictKeys.mpr ?_⟩, ?_⟩, ?_⟩
    · simp [h1]
    · simp [h2]
    · simp [h1, h2, hne]
    · simp [h1, h2]

/-- The keys of the `different` dict: the identifiers present in both
submissions whose outcomes differ. -/
theorem mem_changedKeys_iff (A B : Dict) (k : String) :
    k ∈ (diff_submissions A B).2.2.image Prod.fst ↔
      (k ∈ dictKeys A ∧ k ∈ dictKeys B) ∧ dictGet A k ≠ dictGet B k := by
  rw [diff_different, Finset.image_image]
  simp [Function.comp, Finset.mem_filter, Finset.mem_inter]

/-! ## Lemmas on the normalizer -/

theorem simplifyStep_of_entryFields {r : PyVal} {p : String × String}
    (h : entryFields r = some p) (d : Dict) :
    simplifyStep d r = .ok (dictInsert d p.1 p.2) := by
  cases r with
  | str s => simp [entryFields] at h
  | num n => simp [entryFields] at h
  | bool b => simp [entryFields] at h
  | null => simp [entryFields] at h
  | list xs => simp [entryFields] at h
  | dict fields =>
    cases hid : assocGet fields "id" with
    | none => simp [entryFields, hid] at h
    | some idv =>
      cases idv with
      | str i =>
        cases hst : assocGet fields "status" with
        | none => simp [entryFields, hid, hst] at h
        | some stv =>
          cases stv with
          | str s =>
            have hp : (i, s) = p := by simpa [entryFields, hid, hst] using h
            subst hp
            simp [simplifyStep, getField, hid, hst, asString]
          | num n => simp [entryFields, hid, hst] at h
          | bool b => simp [entryFields, hid, hst] at h
          | null => simp [entryFields, hid, hst] at h
          | list xs => simp [entryFields, hid, hst] at h
          | dict fs => simp [entryFields, hid, hst] at h
      | num n => simp [entryFields, hid] at h
      | bool b => simp [entryFields, hid] at h
      | null => simp [entryFields, hid] at h
      | list xs => simp [entryFields, hid] at h
      | dict fs => simp [entryFields, hid] at h

theorem simplifyStep_keyError_id {fields : List (String × PyVal)}
    (h : assocGet fields "id" = none) (d : Dict) :
    simplifyStep d (.dict fields) = .error (.keyError "id") := by
  simp [simplifyStep, getField, h]

theorem simplifyStep_keyError_status {fields : List (String × PyVal)} {i : String}
    (hid : assocGet fields "id" = some (.str i))
    (h : assocGet fields "status" = none) (d : Dict) :
    simplifyStep d (.dict fields) = .error (.keyError "status") := by
  simp [simplifyStep, getField, hid, h, asString]

theorem foldlM_simplifyStep_ok (rs : List PyVal)
    (h : ∀ r ∈ rs, (entryFields r).isSome) (d : Dict) :
    rs.foldlM simplifyStep d = .ok ((rs.map entryPair).foldl insPair d) := by
  induction rs generalizing d with
  | nil => rfl
  | cons r rs ih =>
    obtain ⟨p, hp⟩ := Option.isSome_iff_exists.mp (h r (List.mem_cons_self r rs))
    have hpair : entryPair r = p := by simp [entryPair, hp]
    simp only [List.foldlM_cons, simplifyStep_of_entryFields hp d, ok_bind,
      List.map_cons, List.foldl_cons]
    rw [ih (fun x hx => h x (List.mem_cons_of_mem r hx))]
    simp [insPair, hpair]

theorem foldlM_simplifyStep_error (pre : List PyVal) (r : PyVal) (post : List PyVal)
    (hpre : ∀ x ∈ pre, (entryFields x).isSome) {e : PyError}
    (herr : ∀ d, simplifyStep d r = .error e) (d : Dict) :
    (pre ++ r :: post).foldlM simplifyStep d = .error e := by
  induction pre generalizing d with
  | nil =>
    simp only [List.nil_append, List.foldlM_cons, herr d, error_bind]
  | cons q pre ih =>
    obtain ⟨p, hp⟩ := Option.isSome_iff_exists.mp (hpre q (List.mem_cons_self q pre))
    simp only [List.cons_append, List.foldlM_cons, simplifyStep_of_entryFields hp d, ok_bind]
    exact ih (fun x hx => hpre x (List.mem_cons_of_mem q hx)) _

theorem simplify_submission_results_none {submission : List (String × PyVal)}
    (h : assocGet submission "results" = none) :
    simplify_submission submission = .error (.keyError "results") := by
  simp [simplify_submission, getField, h]

theorem simplify_submission_results_list {submission : List (String × PyVal)}
    {rs : List PyVal} (h : assocGet submission "results" = some (.list rs)) :
    simplify_submission submission = rs.foldlM simplifyStep [] := by
  simp [simplify_submission, getField, h]

/-- On a record whose entries all carry string `id` and `status` fields, the
normalizer succeeds and returns the dict built from the extracted pairs. -/
theorem simplify_ok {submission : List (String × PyVal)} {rs : List PyVal}
    (h : assocGet submission "results" = some (.list rs))
    (hok : ∀ r ∈ rs, (entryFields r).isSome) :
    simplify_submission submission = .ok (mkDict (rs.map entryPair)) := by
  rw [simplify_submission_results_list h, foldlM_simplifyStep_ok rs hok]
  rfl

/-! ## The claimed properties -/

/-- C1: for every pair of normalized submissions `A` and `B`, the diff
returns exactly `onlyA = keys A \ keys B`, `onlyB = keys B \ keys A`, and
`changed` relating precisely the identifiers present in both domains whose
outcomes differ to the pair `(A[k], B[k])`; outcomes are compared by exact
string equality. -/
theorem diff_submissions_spec (A B : Dict) :
    (diff_submissions A B).1 = dictKeys A \ dictKeys B ∧
    (diff_submissions A B).2.1 = dictKeys B \ dictKeys A ∧
    ∀ k v1 v2, ((k, v1, v2) ∈ (diff_submissions A B).2.2 ↔
      dictGet A k = some v1 ∧ dictGet B k = some v2 ∧ v1 ≠ v2) :=
  ⟨diff_fst A B, diff_snd_fst A B, fun k v1 v2 => mem_different_iff A B k v1 v2⟩

/-- C4: the three parts of the diff result are pairwise disjoint, and every
identifier in the domain of `A` lands in exactly one of `onlyA`, the changed
keys, or the identifiers present in both with equal outcomes. -/
theorem diff_partition (A B : Dict) :
    (diff_submissions A B).1 ∩ (diff_submissions A B).2.1 = ∅ ∧
    (diff_submissions A B).1 ∩ (diff_submissions A B).2.2.image Prod.fst = ∅ ∧
    (diff_submissions A B).2.1 ∩ (diff_submissions A B).2.2.image Prod.fst = ∅ ∧
    ∀ k ∈ dictKeys A,
      (k ∈ (diff_submissions A B).1 ∧ k ∉ (diff_submissions A B).2.2.image Prod.fst ∧
        k ∉ sameOutcomes A B) ∨
      (k ∉ (diff_submissions A B).1 ∧ k ∈ (diff_submissions A B).2.2.image Prod.fst ∧
        k ∉ sameOutcomes A B) ∨
      (k ∉ (diff_submissions A B).1 ∧ k ∉ (diff_submissions A B).2.2.image Prod.fst ∧
        k ∈ sameOutcomes A B) := by
  refine ⟨?_, ?_, ?_, ?_⟩
  · ext k
    simp only [diff_fst, diff_snd_fst, Finset.mem_inter, Finset.mem_sdiff,
      Finset.not_mem_empty, iff_false]
    tauto
  · ext k
    simp only [diff_fst, mem_changedKeys_iff, Finset.mem_inter, Finset.mem_sdiff,
      Finset.not_mem_empty, iff_false]
    tauto
  · ext k
    simp only [diff_snd_fst, mem_changedKeys_iff, Finset.mem_inter, Finset.mem_sdiff,
      Finset.not_mem_empty, iff_false]
    tauto
  · intro k hkA
    by_cases hkB : k ∈ dictKeys B
    · by_cases hv : dictGet A k = dictGet B k
      · right; right
        refine ⟨?_, ?_, ?_⟩
        · simp [diff_fst, Finset.mem_sdiff, hkB]
        · rw [mem_changedKeys_iff]
          simp [hv]
        · simp [sameOutcomes, Finset.mem_filter, Finset.mem_inter, hkA, hkB, hv]
      · right; left
        refine ⟨?_, ?_, ?_⟩
        · simp [diff_fst, Finset.mem_sdiff, hkB]
        · exact (mem_changedKeys_iff A B k).mpr ⟨⟨hkA, hkB⟩, hv⟩
        · simp [sameOutcomes, Finset.mem_filter, hv]
    · left
      refine ⟨?_, ?_, ?_⟩
      · simp [diff_fst, Finset.mem_sdiff, hkA, hkB]
      · rw [mem_changedKeys_iff]
        simp [hkB]
      · simp [sameOutcomes, Finset.mem_filter, Finset.mem_inter, hkB]

/-- Witness for C4 at a concrete input: the key `"job1"`, present only in
the first submission, lands in the only-A cell of the partition. -/
theorem diff_partition_witness :
    ("job1" ∈ (diff_submissions [("job1", "pass")] []).1 ∧
      "job1" ∉ (diff_submissions [("job1", "pass")] []).2.2.image Prod.fst ∧
      "job1" ∉ sameOutcomes [("job1", "pass")] []) ∨
    ("job1" ∉ (diff_submissions [("job1", "pass")] []).1 ∧
      "job1" ∈ (diff_submissions [("job1", "pass")] []).2.2.image Prod.fst ∧
      "job1" ∉ sameOutcomes [("job1", "pass")] []) ∨
    ("job1" ∉ (diff_submissions [("job1", "pass")] []).1 ∧
      "job1" ∉ (diff_submissions [("job1", "pass")] []).2.2.image Prod.fst ∧
      "job1" ∈ sameOutcomes [("job1", "pass")] []) :=
  (diff_partition [("job1", "pass")] []).2.2.2 "job1" (by decide)

/-- C5: diffing is antisymmetric: swapping the submissions swaps the two
only-sets, keeps the changed key set, and reverses every changed pair. -/
theorem diff_antisymm (A B : Dict) :
    (diff_submissions A B).1 = (diff_submissions B A).2.1 ∧
    (diff_submissions A B).2.1 = (diff_submissions B A).1 ∧
    (diff_submissions A B).2.2.image Prod.fst = (diff_submissions B A).2.2.image Prod.fst ∧
    ∀ k v1 v2, ((k, v1, v2) ∈ (diff_submissions A B).2.2 ↔
      (k, v2, v1) ∈ (diff_submissions B A).2.2) := by
  refine ⟨rfl, rfl, ?_, ?_⟩
  · ext k
    simp only [mem_changedKeys_iff]
    constructor
    · rintro ⟨⟨h1, h2⟩, h3⟩
      exact ⟨⟨h2, h1⟩, Ne.symm h3⟩
    · rintro ⟨⟨h1, h2⟩, h3⟩
      exact ⟨⟨h2, h1⟩, Ne.symm h3⟩
  · intro k v1 v2
    rw [mem_different_iff, mem_different_iff]
    constructor
    · rintro ⟨h1, h2, h3⟩
      exact ⟨h2, h1, Ne.symm h3⟩
    · rintro ⟨h1, h2, h3⟩
      exact ⟨h2, h1, Ne.symm h3⟩

/-- C6: the diff computation is a total function on normalized submissions
(pure, raising nothing): on empty inputs every part is empty, and the only
subscripts the body performs — the lookups on the intersection — always
succeed. -/
theorem diff_safety :
    diff_submissions [] [] = (∅, ∅, ∅) ∧
    ∀ (A B : Dict), ∀ k ∈ dictKeys A ∩ dictKeys B,
      (dictGet A k).isSome ∧ (dictGet B k).isSome := by
  constructor
  · rfl
  · intro A B k hk
    rw [Finset.mem_inter] at hk
    exact ⟨mem_dictKeys.mp hk.1, mem_dictKeys.mp hk.2⟩

/-- Witness for C6 at a concrete input: the key shared by two one-entry
submissions is looked up successfully on both sides. -/
theorem diff_safety_witness :
    (dictGet [("job1", "pass")] "job1").isSome ∧
    (dictGet [("job1", "fail")] "job1").isSome :=
  diff_safety.2 [("job1", "pass")] [("job1", "fail")] "job1" (by decide)

/-- C10: the diff reads but never writes its arguments: in the
state-passing embedding the final store equals the initial one, and the
result is the pure diff. -/
theorem diff_submissions_no_mutation (A B : Dict) :
    (diff_submissions_store (A, B)).2 = (A, B) ∧
    (diff_submissions_store (A, B)).1 = diff_submissions A B :=
  ⟨rfl, rfl⟩

/-- Counterexample for C2 as stated: the outcome `"skip"` is not returned
unmodified — the color-reset sequence is appended to it. -/
theorem colorize_outcome_cex : colorize_outcome "skip" ≠ "skip" := by decide

/-- C2 (amended): `"pass"` is wrapped in the bright-green-blink start
sequence and the reset sequence, `"fail"` in the bright-red-blink start
sequence and the reset sequence; any other outcome gets no color-start
prefix but is still followed by the reset sequence. -/
theorem colorize_outcome_spec (outcome : String) :
    (outcome = "pass" → colorize_outcome outcome = greenBlink ++ outcome ++ colorReset) ∧
    (outcome = "fail" → colorize_outcome outcome = redBlink ++ outcome ++ colorReset) ∧
    (outcome ≠ "pass" → outcome ≠ "fail" →
      colorize_outcome outcome = outcome ++ colorReset) := by
  refine ⟨fun h => ?_, fun h => ?_, fun h1 h2 => ?_⟩
  · subst h
    rfl
  · subst h
    rfl
  · show (if outcome = "pass" then greenBlink
      else if outcome = "fail" then redBlink else "") ++ outcome ++ colorReset =
        outcome ++ colorReset
    rw [if_neg h1, if_neg h2]
    rfl

/-- Witness for C2 (amended) at the three kinds of concrete outcome. -/
theorem colorize_outcome_spec_witness :
    colorize_outcome "pass" = greenBlink ++ "pass" ++ colorReset ∧
    colorize_outcome "fail" = redBlink ++ "fail" ++ colorReset ∧
    colorize_outcome "skip" = "skip" ++ colorReset :=
  ⟨(colorize_outcome_spec "pass").1 rfl, (colorize_outcome_spec "fail").2.1 rfl,
   (colorize_outcome_spec "skip").2.2 (by decide) (by decide)⟩

/-- C3: the normalizer requires the top-level `"results"` field and, per
entry, the `"id"` and `"status"` fields; on well-formed records it returns
the id-to-status mapping, and a missing field fails with an error naming
that field (`KeyError`, the `SchemaError` of the spec), producing no partial
output (the `Except.error` result carries no dict). -/
theorem simplify_submission_schema (submission : List (String × PyVal)) :
    (assocGet submission "results" = none →
      simplify_submission submission = .error (.keyError "results")) ∧
    (∀ rs : List PyVal, assocGet submission "results" = some (.list rs) →
      (∀ r ∈ rs, (entryFields r).isSome) →
      simplify_submission submission = .ok (mkDict (rs.map entryPair))) ∧
    (∀ (pre : List PyVal) (fields : List (String × PyVal)) (post : List PyVal),
      assocGet submission "results" = some (.list (pre ++ .dict fields :: post)) →
      (∀ r ∈ pre, (entryFields r).isSome) →
      assocGet fields "id" = none →
      simplify_submission submission = .error (.keyError "id")) ∧
    (∀ (pre : List PyVal) (fields : List (String × PyVal)) (post : List PyVal) (i : String),
      assocGet submission "results" = some (.list (pre ++ .dict fields :: post)) →
      (∀ r ∈ pre, (entryFields r).isSome) →
      assocGet fields "id" = some (.str i) →
      assocGet fields "status" = none →
      simplify_submission submission = .error (.keyError "status")) := by
  refine ⟨simplify_submission_results_none, ?_, ?_, ?_⟩
  · intro rs h hok
    exact simplify_ok h hok
  · intro pre fields post h hpre hid
    rw [simplify_submission_results_list h]
    exact foldlM_simplifyStep_error pre _ post hpre (simplifyStep_keyError_id hid) []
  · intro pre fields post i h hpre hid hst
    rw [simplify_submission_results_list h]
    exact foldlM_simplifyStep_error pre _ post hpre (simplifyStep_keyError_status hid hst) []

/-- Witness for C3 at concrete records: a record without `"results"`, a
well-formed record, a record whose entry lacks `"id"`, and one whose entry
lacks `"status"`. -/
theorem simplify_submission_schema_witness :
    simplify_submission [("session", PyVal.str "x")] = .error (.keyError "results") ∧
    simplify_submission
      [("results", PyVal.list [PyVal.dict [("id", PyVal.str "job1"), ("status", PyVal.str "pass")]])] =
      .ok [("job1", "pass")] ∧
    simplify_submission [("results", PyVal.list [PyVal.dict [("status", PyVal.str "pass")]])] =
      .error (.keyError "id") ∧
    simplify_submission [("results", PyVal.list [PyVal.dict [("id", PyVal.str "job1")]])] =
      .error (.keyError "status") := by
  refine ⟨(simplify_submission_schema [("session", PyVal.str "x")]).1 rfl, ?_, ?_, ?_⟩
  · exact (simplify_submission_schema
      [("results", PyVal.list [PyVal.dict [("id", PyVal.str "job1"), ("status", PyVal.str "pass")]])]).2.1
      [PyVal.dict [("id", PyVal.str "job1"), ("status", PyVal.str "pass")]] rfl (by decide)
  · exact (simplify_submission_schema
      [("results", PyVal.list [PyVal.dict [("status", PyVal.str "pass")]])]).2.2.1
      [] [("status", PyVal.str "pass")] [] rfl (by simp) rfl
  · exact (simplify_submission_schema
      [("results", PyVal.list [PyVal.dict [("id", PyVal.str "job1")]])]).2.2.2
      [] [("id", PyVal.str "job1")] [] "job1" rfl (by simp) rfl rfl

/-- C7: on a record whose entries all carry string `id` and `status`
fields, the normalizer succeeds; each identifier maps to the status of the
last entry carrying it (last write wins), and the resulting keys are
unique. -/
theorem simplify_last_write_wins (submission : List (String × PyVal)) (rs : List PyVal)
    (h : assocGet submission "results" = some (.list rs))
    (hok : ∀ r ∈ rs, (entryFields r).isSome) :
    simplify_submission submission = .ok (mkDict (rs.map entryPair)) ∧
    (∀ k, dictGet (mkDict (rs.map entryPair)) k = lastVal (rs.map entryPair) k) ∧
    ((mkDict (rs.map entryPair)).map Prod.fst).Nodup :=
  ⟨simplify_ok h hok, fun k => dictGet_mkDict _ k, nodup_keys_mkDict _⟩

/-- Witness for C7 at a record with a duplicated identifier: the later
entry's status wins. -/
theorem simplify_last_write_wins_witness :
    simplify_submission
      [("results", PyVal.list
        [PyVal.dict [("id", PyVal.str "job1"), ("status", PyVal.str "pass")],
         PyVal.dict [("id", PyVal.str "job1"), ("status", PyVal.str "fail")]])] =
      .ok [("job1", "fail")] ∧
    dictGet [("job1", "fail")] "job1" = some "fail" :=
  ⟨(simplify_last_write_wins
      [("results", PyVal.list
        [PyVal.dict [("id", PyVal.str "job1"), ("status", PyVal.str "pass")],
         PyVal.dict [("id", PyVal.str "job1"), ("status", PyVal.str "fail")]])]
      [PyVal.dict [("id", PyVal.str "job1"), ("status", PyVal.str "pass")],
       PyVal.dict [("id", PyVal.str "job1"), ("status", PyVal.str "fail")]]
      rfl (by decide)).1, by decide⟩

/-- C8: a report section is emitted only when its part of the diff is
non-empty; the only-in-A and only-in-B sections list identifiers in
ascending lexicographic order, one line per identifier with its colorized
outcome from the respective submission; an empty diff yields an entirely
empty report. -/
theorem report_spec (label1 label2 : String) (A B : Dict) :
    (diff_submissions A B = (∅, ∅, ∅) → report label1 label2 A B = []) ∧
    (report label1 label2 A B =
      onlyJobsSection label1 A (diff_submissions A B).1 ++
        onlyJobsSection label2 B (diff_submissions A B).2.1 ++
        differentSection label1 label2 A B (diff_submissions A B).2.2) ∧
    ((diff_submissions A B).1 = ∅ ↔ onlyJobsSection label1 A (diff_submissions A B).1 = []) ∧
    ((diff_submissions A B).2.1 = ∅ ↔ onlyJobsSection label2 B (diff_submissions A B).2.1 = []) ∧
    ((diff_submissions A B).2.2 = ∅ ↔
      differentSection label1 label2 A B (diff_submissions A B).2.2 = []) ∧
    ((diff_submissions A B).1 ≠ ∅ →
      onlyJobsSection label1 A (diff_submissions A B).1 =
        ("Jobs only in the " ++ label1 ++ ":") ::
          ((diff_submissions A B).1.sort (· ≤ ·)).map (onlyJobLine A)) ∧
    ((diff_submissions A B).2.1 ≠ ∅ →
      onlyJobsSection label2 B (diff_submissions A B).2.1 =
        ("Jobs only in the " ++ label2 ++ ":") ::
          ((diff_submissions A B).2.1.sort (· ≤ ·)).map (onlyJobLine B)) ∧
    List.Sorted (· ≤ ·) ((diff_submissions A B).1.sort (· ≤ ·)) ∧
    List.Sorted (· ≤ ·) ((diff_submissions A B).2.1.sort (· ≤ ·)) ∧
    ((diff_submissions A B).1.sort (· ≤ ·)).length = (diff_submissions A B).1.card ∧
    ((diff_submissions A B).2.1.sort (· ≤ ·)).length = (diff_submissions A B).2.1.card := by
  refine ⟨?_, rfl, ?_, ?_, ?_, ?_, ?_, Finset.sort_sorted _ _, Finset.sort_sorted _ _,
    Finset.length_sort _, Finset.length_sort _⟩
  · intro h
    have h1 : (diff_submissions A B).1 = ∅ := by rw [h]
    have h2 : (diff_submissions A B).2.1 = ∅ := by rw [h]
    have h3 : (diff_submissions A B).2.2 = ∅ := by rw [h]
    simp [report, h1, h2, h3, onlyJobsSection, differentSection]
  · by_cases h : (diff_submissions A B).1 = ∅ <;> simp [onlyJobsSection, h]
  · by_cases h : (diff_submissions A B).2.1 = ∅ <;> simp [onlyJobsSection, h]
  · by_cases h : (diff_submissions A B).2.2 = ∅ <;> simp [differentSection, h]
  · intro h
    simp [onlyJobsSection, h]
  · intro h
    simp [onlyJobsSection, h]

/-- Witness for C8: identical (empty) submissions yield an empty report,
and a submission with one extra job yields the section with its header. -/
theorem report_spec_witness :
    report "sub1" "sub2" [] [] = [] ∧
    onlyJobsSection "sub1" [("job1", "pass")] (diff_submissions [("job1", "pass")] []).1 =
      ("Jobs only in the " ++ "sub1" ++ ":") ::
        ((diff_submissions [("job1", "pass")] []).1.sort (· ≤ ·)).map
          (onlyJobLine [("job1", "pass")]) :=
  ⟨(report_spec "sub1" "sub2" [] []).1 (by decide),
   (report_spec "sub1" "sub2" [("job1", "pass")] []).2.2.2.2.2.1 (by decide)⟩

/-- C9: invoked with a positional argument count other than 2, `main`
raises `SystemExit` with the usage message — which goes to the error stream
with a non-zero exit status — and produces no report. -/
theorem main_run_usage (prog : String) (args : List String)
    (record1 record2 : List (String × PyVal)) (h : args.length ≠ 2) :
    main_run (prog :: args) record1 record2 = .usage usageMsg ∧
    ∀ lines, main_run (prog :: args) record1 record2 ≠ .done lines := by
  constructor
  · simp [main_run, h]
  · intro lines
    simp [main_run, h]

/-- Witness for C9: invoked with no positional argument at all. -/
theorem main_run_usage_witness :
    main_run ["diff_submissions.py"] [] [] = .usage usageMsg :=
  (main_run_usage "diff_submissions.py" [] [] [] (by decide)).1

end DiffSubmissions
